import Mathlib

/-!
Verification of the core state logic of the daily-activity tracker
(`src/App.js`).  JavaScript values that flow through the store are embedded
as the inductive type `JSVal`; the module-level pure functions
(`loadStore`, `makeItemsFromTemplates`, `normalizeDayItems`, `pruneHistory`)
are translated one-to-one, and the React component's event handlers and
effects are modelled as a step function on an explicit `AppState`.

Impure primitives are made explicit parameters:
* `Date.now()` becomes a `now : Int` argument, captured exactly where the
  source captures it;
* `uid()` becomes a `gen : Nat → String` supply, consumed left-to-right, one
  index per generated id (the real `uid` always returns a non-empty string;
  where that matters it appears as a hypothesis).
-/

namespace DailyTracker

/-- A JavaScript value, as far as this program inspects one: `undefined`,
`null`, booleans, numbers (modelled as integers, which is what `Date.now()`
and the persisted data use), strings, arrays and plain objects. -/
inductive JSVal where
  | undefined : JSVal
  | null : JSVal
  | bool : Bool → JSVal
  | num : Int → JSVal
  | str : String → JSVal
  | arr : List JSVal → JSVal
  | obj : List (String × JSVal) → JSVal

namespace JSVal

mutual

/-- Boolean structural equality on `JSVal` (decidable equality is derived
from it below). -/
def beq : JSVal → JSVal → Bool
  | .undefined, .undefined => true
  | .null, .null => true
  | .bool a, .bool b => a == b
  | .num a, .num b => a == b
  | .str a, .str b => a == b
  | .arr xs, .arr ys => beqList xs ys
  | .obj fs, .obj gs => beqFields fs gs
  | _, _ => false

/-- Elementwise `beq` on arrays. -/
def beqList : List JSVal → List JSVal → Bool
  | [], [] => true
  | x :: xs, y :: ys => beq x y && beqList xs ys
  | _, _ => false

/-- Fieldwise `beq` on objects. -/
def beqFields : List (String × JSVal) → List (String × JSVal) → Bool
  | [], [] => true
  | (k, v) :: fs, (k2, v2) :: gs => k == k2 && beq v v2 && beqFields fs gs
  | _, _ => false

end

theorem beq_iff : ∀ a b : JSVal, beq a b = true ↔ a = b := by
  refine beq.induct
    (fun a b => beq a b = true ↔ a = b)
    (fun fs gs => beqFields fs gs = true ↔ fs = gs)
    (fun xs ys => beqList xs ys = true ↔ xs = ys)
    ?_ ?_ ?_ ?_ ?_ ?_ ?_ ?_ ?_ ?_ ?_ ?_ ?_ ?_ <;> intros
  case refine_8 t x h1 h2 h3 h4 h5 h6 h7 =>
    cases t <;> cases x <;> simp_all [beq]
  case refine_11 t x h1 h2 =>
    cases t <;> cases x <;> simp_all [beqList]
    exact fun _ _ => h2 _ _ _ _ rfl rfl rfl rfl
  case refine_14 t x h1 h2 =>
    cases t with
    | nil => cases x <;> simp_all [beqFields]
    | cons p fs2 =>
        obtain ⟨k0, v0⟩ := p
        cases x with
        | nil => simp [beqFields]
        | cons q gs2 =>
            obtain ⟨k1, v1⟩ := q
            simp_all [beqFields]
            exact fun _ _ _ => h2 _ _ _ _ _ _ rfl rfl rfl rfl rfl rfl
  all_goals simp_all [beq, beqList, beqFields]

instance : DecidableEq JSVal := fun a b => decidable_of_iff _ (beq_iff a b)

/-- JavaScript truthiness. -/
def truthy : JSVal → Bool
  | .undefined => false
  | .null => false
  | .bool b => b
  | .num n => n != 0
  | .str s => s != ""
  | .arr _ => true
  | .obj _ => true

/-- Whether `typeof v` is the string `object` (true for `null`, arrays and
objects). -/
def typeofObject : JSVal → Bool
  | .null => true
  | .arr _ => true
  | .obj _ => true
  | _ => false

/-- `Array.isArray`. -/
def isArray : JSVal → Bool
  | .arr _ => true
  | _ => false

/-- Property lookup in an object's field list (first match wins; the
documents this app builds never carry duplicate keys). -/
def getFieldList : List (String × JSVal) → String → JSVal
  | [], _ => .undefined
  | (a, b) :: rest, k => if a = k then b else getFieldList rest k

/-- Property read `v[k]` / `v?.[k]`: fields of non-objects read as
`undefined` (this app never reads expando properties of arrays). -/
def getField : JSVal → String → JSVal
  | .obj fs, k => getFieldList fs k
  | _, _ => .undefined

/-- Property write inside a field list: replace an existing key in place,
otherwise append (JavaScript property-creation order). -/
def setFieldList : List (String × JSVal) → String → JSVal → List (String × JSVal)
  | [], k, v => [(k, v)]
  | (a, b) :: rest, k, v =>
      if a = k then (a, v) :: rest else (a, b) :: setFieldList rest k v

/-- Property write `v[k] = x` on an object.  Writes to non-objects are left
out of the model (the app only writes fields of parsed objects; the one
unreachable-in-practice exception, a JSON blob that parses to an array, is
noted at `loadStore`). -/
def setField : JSVal → String → JSVal → JSVal
  | .obj fs, k, v => .obj (setFieldList fs k v)
  | w, _, _ => w

/-- The expression `a || b`. -/
def jsOr (a b : JSVal) : JSVal := if truthy a then a else b

mutual

/-- JavaScript `String(v)` coercion. -/
def toStr : JSVal → String
  | .undefined => "undefined"
  | .null => "null"
  | .bool true => "true"
  | .bool false => "false"
  | .num n => toString n
  | .str s => s
  | .arr xs => String.intercalate "," (toStrElems xs)
  | .obj _ => "object Object"

/-- Array elements under `String`: `null` and `undefined` join as empty. -/
def toStrElems : List JSVal → List String
  | [] => []
  | .undefined :: xs => "" :: toStrElems xs
  | .null :: xs => "" :: toStrElems xs
  | x :: xs => toStr x :: toStrElems xs

end

end JSVal

/-- Whitespace for `String.prototype.trim` (the characters this app's data
can contain). -/
def isWS (c : Char) : Bool := c = ' ' || c = '\t' || c = '\n' || c = '\r'

/-- Trim of a character list: drop leading whitespace, then trailing. -/
def trimChars (l : List Char) : List Char :=
  (((l.dropWhile isWS).reverse.dropWhile isWS)).reverse

/-- JavaScript `s.trim()`. -/
def jsTrim (s : String) : String := ⟨trimChars s.data⟩

open JSVal

/-- An activity item as produced by `normalizeDayItems` /
`makeItemsFromTemplates` / `addItem`.  `id` and `bucket` stay `JSVal`
because the source keeps whatever truthy value was found there
(`x.id || uid()`, `x.bucket || 'morning'`). -/
structure Item where
  id : JSVal
  text : String
  bucket : JSVal
  done : Bool
  createdAt : Int
  fromTemplate : Bool
deriving DecidableEq

/-- The object literal an `Item` denotes when stored back into `days`. -/
def itemToJS (it : Item) : JSVal :=
  .obj [("id", it.id), ("text", .str it.text), ("bucket", it.bucket),
        ("done", .bool it.done), ("createdAt", .num it.createdAt),
        ("fromTemplate", .bool it.fromTemplate)]

/-- The arrow function inside `normalizeDayItems`'s `.map`: `fresh` is the
`uid()` that would be generated for this element. -/
def normItem (now : Int) (fresh : String) (x : JSVal) : Item :=
  { id := jsOr (getField x "id") (.str fresh)
    text := jsTrim (toStr (jsOr (getField x "text") (.str "")))
    bucket := jsOr (getField x "bucket") (.str "morning")
    done := truthy (getField x "done")
    createdAt := match getField x "createdAt" with
      | .num n => n
      | _ => now
    fromTemplate := truthy (getField x "fromTemplate") }

/-- The `.map` over the filtered elements, threading the `uid()` supply:
element number `i` that lacks an id receives `gen i`. -/
def normMap (now : Int) (gen : Nat → String) : Nat → List JSVal → List Item
  | _, [] => []
  | i, x :: xs => normItem now (gen i) x :: normMap now gen (i + 1) xs

/-- `normalizeDayItems(items)` from `src/App.js`: non-arrays become `[]`;
elements that are not truthy objects are dropped; each survivor is
normalised by `normItem`; items whose trimmed text is empty are dropped. -/
def normalizeDayItems (now : Int) (gen : Nat → String) (items : JSVal) : List Item :=
  match items with
  | .arr xs =>
      (normMap now gen 0
        (xs.filter (fun x => truthy x && typeofObject x))).filter
        (fun it => it.text != "")
  | _ => []

/-- `templates?.[b.id]` guarded by `Array.isArray`, else `[]`. -/
def bucketList (templates : JSVal) (b : String) : List JSVal :=
  match getField templates b with
  | .arr xs => xs
  | _ => []

/-- The text a template entry contributes: `String(t || '').trim()`. -/
def tplText (t : JSVal) : String := jsTrim (toStr (jsOr t (.str "")))

/-- The inner loop of `makeItemsFromTemplates` for one bucket: `i` is the
index of the next `uid()` to be consumed. -/
def expandList (b : String) (now : Int) (gen : Nat → String) :
    Nat → List JSVal → List Item
  | _, [] => []
  | i, t :: ts =>
      let text := tplText t
      if text = "" then expandList b now gen i ts
      else
        { id := .str (gen i), text := text, bucket := .str b, done := false,
          createdAt := now, fromTemplate := true } :: expandList b now gen (i + 1) ts

/-- The non-empty trimmed texts a bucket's template list produces, in
stored order (the reference ordering for the expansion claims). -/
def bucketTexts (templates : JSVal) (b : String) : List String :=
  ((bucketList templates b).map tplText).filter (fun t => t ≠ "")

/-- The outer loop over `BUCKETS`, threading the `uid()` counter across
buckets. -/
def expandAll (now : Int) (gen : Nat → String) :
    Nat → List (String × List JSVal) → List Item
  | _, [] => []
  | i, (b, l) :: rest =>
      let xs := expandList b now gen i l
      xs ++ expandAll now gen (i + xs.length) rest

/-- `makeItemsFromTemplates(templates)` from `src/App.js`: `now` is the
single `Date.now()` captured at the start of the call. -/
def makeItemsFromTemplates (now : Int) (gen : Nat → String) (templates : JSVal) :
    List Item :=
  expandAll now gen 0
    [("morning", bucketList templates "morning"),
     ("noon", bucketList templates "noon"),
     ("evening", bucketList templates "evening")]

/-- The `days` map of the store, as the association list backing the JS
object (insertion order preserved, keys unique in every document the app
builds). -/
abbrev Days := List (String × JSVal)

/-- `daysObj[k]`. -/
def jsGet (days : Days) (k : String) : JSVal :=
  JSVal.getFieldList days k

/-- Lexicographic comparison of character lists by code point: the
JavaScript relational operator on the backing strings. -/
def charListLt : List Char → List Char → Bool
  | [], [] => false
  | [], _ :: _ => true
  | _ :: _, [] => false
  | c :: cs, d :: ds =>
      if c.toNat < d.toNat then true
      else if d.toNat < c.toNat then false
      else charListLt cs ds

/-- JavaScript string comparison a lt b (lexicographic; the app compares
zero-padded date keys, where this coincides with date order). -/
def strLt (a b : String) : Bool := charListLt a.data b.data

/-- The sort comparator `(a, b) => (a < b ? 1 : -1)`: `a` may be placed
before `b` exactly when the comparator is negative, i.e. not `a < b`. -/
def keyOrder (a b : String) : Prop := strLt a b = false

instance : DecidableRel keyOrder := fun _ _ => instDecidableEqBool _ _

/-- Keys of `daysObj` sorted by that comparator: descending lexicographic
order (`Array.prototype.sort` is stable, as is insertion sort). -/
def descKeys (ks : List String) : List String :=
  List.insertionSort keyOrder ks

/-- `pruneHistory(daysObj, keep)` from `src/App.js`: keep the first `keep`
keys in descending order, each bound to its original value. -/
def pruneHistory (days : Days) (keep : Nat) : Days :=
  ((descKeys (days.map Prod.fst)).take keep).map (fun k => (k, jsGet days k))

/-- The three built-in default template lists of a first-run document. -/
def defaultTemplatesJS : JSVal :=
  .obj [("morning", .arr [.str "Water", .str "Stretch", .str "Plan day"]),
        ("noon", .arr [.str "Lunch", .str "5-min walk"]),
        ("evening", .arr [.str "Review day", .str "Read 10 min"])]

/-- The document `loadStore` returns when nothing is persisted yet. -/
def freshDefaultStore : JSVal :=
  .obj [("version", .num 2), ("templates", defaultTemplatesJS), ("days", .obj [])]

/-- Three empty template buckets, used by migration, backfill and the
App's corrupt-store fallback. -/
def emptyTemplatesJS : JSVal :=
  .obj [("morning", .arr []), ("noon", .arr []), ("evening", .arr [])]

/-- `loadStore()` from `src/App.js`.  The interaction with `localStorage`
and `JSON.parse` is made explicit in the argument: `none` is an absent (or
empty) raw blob, `some none` a present blob on which `JSON.parse` throws,
and `some (some v)` a blob parsing to `v`.  Returns `none` where the source
returns `null` (the corrupt-store signal).  A blob parsing to an array
would, in JavaScript, receive `version` / `templates` / `days` as expando
properties of the array; `setField` drops those writes, and nothing in the
app reads fields off an array-typed store. -/
def loadStore (raw : Option (Option JSVal)) : Option JSVal :=
  match raw with
  | none => some freshDefaultStore
  | some none => none
  | some (some parsed) =>
      if ¬(truthy parsed && typeofObject parsed) then none
      else if truthy (getField parsed "dateKey") && isArray (getField parsed "items") then
        some (.obj [("version", .num 2),
                    ("templates", emptyTemplatesJS),
                    ("days", .obj [(toStr (getField parsed "dateKey"),
                                    getField parsed "items")])])
      else
        let p1 := if truthy (getField parsed "version") then parsed
                  else setField parsed "version" (.num 2)
        let p2 := if truthy (getField p1 "templates") then p1
                  else setField p1 "templates" emptyTemplatesJS
        let p3 := if truthy (getField p2 "days") then p2
                  else setField p2 "days" (.obj [])
        some p3

/-- The fallback document built inline in the `useState` initializer of
`App` when `loadStore()` returns `null`. -/
def fallbackStore : JSVal :=
  .obj [("version", .num 2), ("templates", emptyTemplatesJS), ("days", .obj [])]

/-- The `useState` initializer: `loadStore() || fallback`. -/
def storeInit (raw : Option (Option JSVal)) : JSVal :=
  (loadStore raw).getD fallbackStore

/-- JavaScript `list.splice(idx, 1)` (as used by `removeTemplateItem`):
a negative index counts from the end, clamped at `0`; an index at or past
the end deletes nothing. -/
def spliceRemoveOne (l : List JSVal) (idx : Int) : List JSVal :=
  let len : Int := l.length
  let start : Nat := if idx < 0 then (max (len + idx) 0).toNat
                     else (min idx len).toNat
  l.take start ++ l.drop (start + 1)

/-- The spread `a = [...(v || [])]` over a template bucket.  Spreading a
truthy non-array would throw in JavaScript; the app never stores one. -/
def spreadArr (v : JSVal) : List JSVal :=
  match v with
  | .arr xs => xs
  | _ => []

/-- The fields an object spread `...(v)` contributes: the own fields of an
object, nothing for primitives (spreading an array would contribute index
keys; the app never spreads an array-typed `templates` or `days`). -/
def spreadFields (v : JSVal) : List (String × JSVal) :=
  match v with
  | .obj fs => fs
  | _ => []

/-- The in-memory store held in the `store` state variable.  After
`loadStore`, the app only ever reads `version`, `templates` and `days`,
so the working store is modelled by those three fields; `days` is kept as
an association list so that the map operations stay explicit. -/
structure Store where
  version : JSVal
  templates : JSVal
  days : Days
deriving DecidableEq

/-- The component state that the verified logic touches: the selected tab,
the store, the active date key and the working item list. -/
structure AppState where
  tab : String
  store : Store
  dateKey : String
  items : List Item
deriving DecidableEq

/-- The object update `{ ...days, k: v }`: replace the value of an existing
key in place, otherwise append the new key. -/
def setKey : Days → String → JSVal → Days
  | [], k, v => [(k, v)]
  | (a, b) :: rest, k, v =>
      if a = k then (k, v) :: rest else (a, b) :: setKey rest k v

/-- The persist effect (`useEffect` on `[items]`): write the working list
into `days[dateKey]`, prune to 7, save.  Every saved snapshot in the model
is the `store` field of the state this produces. -/
def writeBackItems (s : AppState) (items1 : List Item) : AppState :=
  { s with
      items := items1
      store := { s.store with
        days := pruneHistory
          (setKey s.store.days s.dateKey (.arr (items1.map itemToJS))) 7 } }

/-- The shared seeding path (initial-load effect and rollover effect):
seed `days[tk]` from the templates when it is absent or falsy, then prune. -/
def seedStoreDay (tk : String) (now : Int) (gen : Nat → String) (st : Store) :
    Store :=
  let days1 := if truthy (jsGet st.days tk) then st.days
               else setKey st.days tk
                 (.arr ((makeItemsFromTemplates now gen st.templates).map itemToJS))
  { st with days := pruneHistory days1 7 }

/-- Mounting the component over a loaded store: the initial-load effect
seeds and prunes today's entry, the `[dateKey]` sync effect derives the
working list, and the `[items]` persist effect writes it back.  The
effects are modelled as running in order on the latest state (React's
stale-closure timing on the very first commit is not modelled; no claim
concerns it). -/
def mountApp (tk : String) (now : Int) (gen : Nat → String) (s0 : Store) :
    AppState :=
  let st1 := seedStoreDay tk now gen s0
  let items1 := normalizeDayItems now gen (jsGet st1.days tk)
  writeBackItems { tab := "today", store := st1, dateKey := tk, items := items1 }
    items1

/-- `addItem`: no-op on empty trimmed text, otherwise prepend a fresh item
and write back. -/
def addItem (text : String) (bucket : String) (now : Int) (fresh : String)
    (s : AppState) : AppState :=
  let trimmed := jsTrim text
  if trimmed = "" then s
  else writeBackItems s
    ({ id := .str fresh, text := trimmed, bucket := .str bucket, done := false,
       createdAt := now, fromTemplate := false } :: s.items)

/-- `toggleDone(id)` followed by the persist effect.  The source compares
ids with strict equality; ids are primitive strings in every record the
app builds, where strict equality is structural equality. -/
def toggleDone (id : JSVal) (s : AppState) : AppState :=
  writeBackItems s
    (s.items.map (fun it => if it.id = id then { it with done := !it.done } else it))

/-- `removeItem(id)` followed by the persist effect. -/
def removeItem (id : JSVal) (s : AppState) : AppState :=
  writeBackItems s (s.items.filter (fun it => it.id != id))

/-- `clearCompleted()` followed by the persist effect. -/
def clearCompleted (s : AppState) : AppState :=
  writeBackItems s (s.items.filter (fun it => !it.done))

/-- `markAllDone(bucket)` followed by the persist effect. -/
def markAllDone (bucket : String) (s : AppState) : AppState :=
  writeBackItems s
    (s.items.map (fun it => if it.bucket = .str bucket then { it with done := true } else it))

/-- `resetToday()`: jump to today's key, replace the working list with a
fresh template expansion, write back.  (When the active key actually
changes, React's `dateKey` sync effect would afterwards re-derive the list
from the store; that second step is not modelled here — no claim concerns
this operation beyond the prune bound, which holds for every write-back.) -/
def resetToday (tk : String) (now : Int) (gen : Nat → String) (s : AppState) :
    AppState :=
  writeBackItems { s with dateKey := tk }
    (makeItemsFromTemplates now gen s.store.templates)

/-- `applyTemplatesToToday()`: `resetToday` plus forcing the today tab. -/
def applyTemplatesToToday (tk : String) (now : Int) (gen : Nat → String)
    (s : AppState) : AppState :=
  { resetToday tk now gen s with tab := "today" }

/-- `addTemplateItem`: no-op on empty trimmed text, otherwise prepend the
trimmed text to the chosen bucket's template list and save.  `days` is
written through untouched. -/
def addTemplateItem (text : String) (bucket : String) (s : AppState) : AppState :=
  let trimmed := jsTrim text
  if trimmed = "" then s
  else
    { s with store := { s.store with
        templates := .obj (setFieldList (spreadFields s.store.templates) bucket
          (.arr (.str trimmed :: spreadArr (getField s.store.templates bucket)))) } }

/-- `removeTemplateItem(bucketId, idx)`: copy the bucket's list, `splice`
the index out, save.  `days` is written through untouched. -/
def removeTemplateItem (bucket : String) (idx : Int) (s : AppState) : AppState :=
  { s with store := { s.store with
      templates := .obj (setFieldList (spreadFields s.store.templates) bucket
        (.arr (spliceRemoveOne (spreadArr (getField s.store.templates bucket)) idx))) } }

/-- `openHistoryDay(k)`: set the active key and show the today tab.  When
the key actually changes, the `[dateKey]` sync effect re-derives the
working list from the stored record and the persist effect writes the
normalised list back. -/
def openHistoryDay (k : String) (now : Int) (gen : Nat → String) (s : AppState) :
    AppState :=
  if k = s.dateKey then { s with tab := "today" }
  else
    let items1 := normalizeDayItems now gen (jsGet s.store.days k)
    writeBackItems { s with tab := "today", dateKey := k, items := items1 } items1

/-- One firing of the 30-second rollover interval: when the active key
differs from the freshly computed today key, seed and prune the store,
force the today tab, switch the active key, and let the sync and persist
effects rebuild the working list.  Otherwise nothing changes. -/
def rolloverPoll (tk : String) (now : Int) (gen : Nat → String) (s : AppState) :
    AppState :=
  if s.dateKey = tk then s
  else
    let st1 := seedStoreDay tk now gen s.store
    let items1 := normalizeDayItems now gen (jsGet st1.days tk)
    writeBackItems { tab := "today", store := st1, dateKey := tk, items := items1 }
      items1

/-- A user-level or timer-level event, with its impure inputs attached. -/
inductive Op where
  | addItem (text bucket : String) (now : Int) (fresh : String)
  | toggleDone (id : JSVal)
  | removeItem (id : JSVal)
  | clearCompleted
  | markAllDone (bucket : String)
  | resetToday (tk : String) (now : Int) (gen : Nat → String)
  | applyTemplatesToToday (tk : String) (now : Int) (gen : Nat → String)
  | addTemplateItem (text bucket : String)
  | removeTemplateItem (bucket : String) (idx : Int)
  | openHistoryDay (k : String) (now : Int) (gen : Nat → String)
  | rolloverPoll (tk : String) (now : Int) (gen : Nat → String)
  | setTab (t : String)

/-- Interpretation of one event. -/
def step (op : Op) (s : AppState) : AppState :=
  match op with
  | .addItem text bucket now fresh => addItem text bucket now fresh s
  | .toggleDone id => toggleDone id s
  | .removeItem id => removeItem id s
  | .clearCompleted => clearCompleted s
  | .markAllDone bucket => markAllDone bucket s
  | .resetToday tk now gen => resetToday tk now gen s
  | .applyTemplatesToToday tk now gen => applyTemplatesToToday tk now gen s
  | .addTemplateItem text bucket => addTemplateItem text bucket s
  | .removeTemplateItem bucket idx => removeTemplateItem bucket idx s
  | .openHistoryDay k now gen => openHistoryDay k now gen s
  | .rolloverPoll tk now gen => rolloverPoll tk now gen s
  | .setTab t => { s with tab := t }

/-- All states reached while running a list of events (head = start state).
Every store snapshot the app persists during the run is the `store` of one
of these states. -/
def runOps : AppState → List Op → List AppState
  | s, [] => [s]
  | s, op :: ops => s :: runOps (step op s) ops

/-- Items in the shape `normalizeDayItems` outputs: truthy id, non-empty
already-trimmed text, truthy bucket. -/
def NormalForm (its : List Item) : Prop :=
  ∀ it ∈ its, truthy it.id = true ∧ it.text ≠ "" ∧ jsTrim it.text = it.text ∧
    truthy it.bucket = true

/-- A days map that is the output of a 7-entry prune (the shape of every
persisted snapshot). -/
def DaysPruned (d : Days) : Prop := ∃ d0, d = pruneHistory d0 7

/-- A concrete state used by the refutations: the user opened the history
day `2024-01-01` (whose stored record is unnormalised) and then switched
to the history tab. -/
def sampleHistState : AppState :=
  { tab := "history", dateKey := "2024-01-01",
    store := { version := .num 2, templates := .obj [],
               days := [("2024-01-01", .arr [.obj [("text", .str " hi ")]])] },
    items := [] }

/-- A concrete days map used by witnesses. -/
def sampleDays : Days :=
  [("2024-01-02", .num 2), ("2024-01-01", .num 1)]

/-- A concrete raw day-record used by witnesses. -/
def sampleRawDay : JSVal :=
  .arr [.obj [("text", .str " hi "), ("bucket", .str "banana"), ("done", .num 1)]]

/-- A concrete raw element list with an off-model bucket, used by the C8
refutation and witness. -/
def sampleRawDayList : List JSVal :=
  [.obj [("text", .str "X"), ("bucket", .str "banana")]]

/-- The item `normalizeDayItems 0 (fun _ => "g")` produces from
`sampleRawDayList`. -/
def sampleBananaItem : Item :=
  { id := .str "g", text := "X", bucket := .str "banana", done := false,
    createdAt := 0, fromTemplate := false }

/-- A concrete state with one template entry, used by the template-removal
refutation. -/
def sampleTplState : AppState :=
  { tab := "templates", dateKey := "2024-01-01",
    store := { version := .num 2,
               templates := .obj [("morning", .arr [.str "A"]),
                                  ("noon", .arr []), ("evening", .arr [])],
               days := [] },
    items := [] }

theorem charListLt_irrefl : ∀ l, charListLt l l = false
  | [] => rfl
  | c :: cs => by simp [charListLt, charListLt_irrefl cs]

theorem charListLt_asymm : ∀ a b, charListLt a b = true → charListLt b a = false := by
  intro a
  induction a with
  | nil => intro b; cases b <;> simp [charListLt]
  | cons c cs ih =>
      intro b
      cases b with
      | nil => simp [charListLt]
      | cons d ds =>
          simp only [charListLt]
          rcases Nat.lt_trichotomy c.toNat d.toNat with h | h | h
          · intro _
            simp [h, Nat.lt_asymm h]
          · simp [h]
            exact ih ds
          · simp [h, Nat.lt_asymm h]

theorem charListLt_trichotomy : ∀ a b, charListLt a b = true ∨ a = b ∨ charListLt b a = true := by
  intro a
  induction a with
  | nil => intro b; cases b <;> simp [charListLt]
  | cons c cs ih =>
      intro b
      cases b with
      | nil => simp [charListLt]
      | cons d ds =>
          rcases Nat.lt_trichotomy c.toNat d.toNat with h | h | h
          · left
            simp [charListLt, h]
          · have hc : c = d := Char.ext (UInt32.ext h)
            subst hc
            rcases ih ds with h2 | h2 | h2
            · left
              simp [charListLt, h2]
            · right; left
              simp [h2]
            · right; right
              simp [charListLt, h2]
          · right; right
            simp [charListLt, h, Nat.lt_asymm h]

theorem charListLt_trans : ∀ a b c, charListLt a b = true → charListLt b c = true →
    charListLt a c = true := by
  intro a
  induction a with
  | nil =>
      intro b c h1 h2
      cases c with
      | nil => cases b <;> simp_all [charListLt]
      | cons d ds => simp [charListLt]
  | cons x xs ih =>
      intro b c h1 h2
      cases b with
      | nil => simp [charListLt] at h1
      | cons y ys =>
          cases c with
          | nil => simp [charListLt] at h2
          | cons z zs =>
              simp only [charListLt] at h1 h2 ⊢
              rcases Nat.lt_trichotomy x.toNat y.toNat with hxy | hxy | hxy <;>
                rcases Nat.lt_trichotomy y.toNat z.toNat with hyz | hyz | hyz
              · simp [Nat.lt_trans hxy hyz]
              · simp [hyz ▸ hxy]
              · simp [hyz, Nat.lt_asymm hyz] at h2
              · simp [hxy ▸ hyz]
              · simp [hxy, hyz] at h1 h2 ⊢
                exact ih ys zs h1 h2
              · simp [hyz, Nat.lt_asymm hyz] at h2
              · simp [hxy, Nat.lt_asymm hxy] at h1
              · simp [hxy, Nat.lt_asymm hxy] at h1
              · simp [hxy, Nat.lt_asymm hxy] at h1

theorem strLt_irrefl (a : String) : strLt a a = false := charListLt_irrefl _

theorem strLt_asymm {a b : String} (h : strLt a b = true) : strLt b a = false :=
  charListLt_asymm _ _ h

theorem strLt_trans {a b c : String} (h1 : strLt a b = true) (h2 : strLt b c = true) :
    strLt a c = true := charListLt_trans _ _ _ h1 h2

theorem strLt_trichotomy (a b : String) :
    strLt a b = true ∨ a = b ∨ strLt b a = true := by
  rcases charListLt_trichotomy a.data b.data with h | h | h
  · exact Or.inl h
  · exact Or.inr (Or.inl (String.ext h))
  · exact Or.inr (Or.inr h)

theorem keyOrder_total : ∀ a b : String, keyOrder a b ∨ keyOrder b a := by
  intro a b
  unfold keyOrder
  cases h : strLt a b with
  | false => exact Or.inl rfl
  | true => exact Or.inr (strLt_asymm h)

theorem keyOrder_trans : ∀ a b c : String, keyOrder a b → keyOrder b c → keyOrder a c := by
  intro a b c h1 h2
  unfold keyOrder at h1 h2 ⊢
  cases hac : strLt a c with
  | false => rfl
  | true =>
      exfalso
      rcases strLt_trichotomy b c with h | h | h
      · rw [h] at h2
        cases h2
      · subst h
        rw [hac] at h1
        cases h1
      · have := strLt_trans hac h
        rw [this] at h1
        cases h1

theorem head?_dropWhile_not (p : Char → Bool) :
    ∀ (l : List Char) (c : Char), ((l.dropWhile p).head? = some c) → p c = false := by
  intro l
  induction l with
  | nil => intro c h; cases h
  | cons a l ih =>
      intro c h
      by_cases hp : p a = true
      · rw [List.dropWhile_cons_of_pos hp] at h
        exact ih c h
      · rw [List.dropWhile_cons_of_neg hp] at h
        cases h
        simpa using hp

theorem dropWhile_eq_self_of_head? (p : Char → Bool) (l : List Char)
    (h : ∀ c, l.head? = some c → p c = false) : l.dropWhile p = l := by
  cases l with
  | nil => rfl
  | cons a l =>
      have := h a rfl
      simp [List.dropWhile_cons, this]

theorem getLast?_dropWhile (p : Char → Bool) :
    ∀ l : List Char, l.dropWhile p ≠ [] → (l.dropWhile p).getLast? = l.getLast? := by
  intro l
  induction l with
  | nil => intro h; cases h rfl
  | cons a l ih =>
      intro h
      by_cases hp : p a = true
      · rw [List.dropWhile_cons_of_pos hp] at h ⊢
        rw [ih h]
        cases l with
        | nil => rw [List.dropWhile_nil] at h; cases h rfl
        | cons b l2 => exact List.getLast?_cons_cons.symm
      · rw [List.dropWhile_cons_of_neg hp]

theorem trimChars_head_not (l : List Char) :
    ∀ c, (trimChars l).head? = some c → isWS c = false := by
  intro c h
  unfold trimChars at h
  rw [List.head?_reverse] at h
  have hne : ((l.dropWhile isWS).reverse.dropWhile isWS) ≠ [] := by
    intro he
    rw [he] at h
    cases h
  rw [getLast?_dropWhile isWS _ hne] at h
  rw [List.getLast?_reverse] at h
  exact head?_dropWhile_not isWS l c h

theorem trimChars_idem (l : List Char) : trimChars (trimChars l) = trimChars l := by
  have h1 : (trimChars l).dropWhile isWS = trimChars l :=
    dropWhile_eq_self_of_head? _ _ (trimChars_head_not l)
  have h2 : (trimChars l).reverse.dropWhile isWS = (trimChars l).reverse := by
    unfold trimChars
    rw [List.reverse_reverse, List.dropWhile_idempotent]
  show (((trimChars l).dropWhile isWS).reverse.dropWhile isWS).reverse = trimChars l
  rw [h1, h2, List.reverse_reverse]

theorem jsTrim_idem (s : String) : jsTrim (jsTrim s) = jsTrim s := by
  show String.mk (trimChars (String.mk (trimChars s.data)).data) = jsTrim s
  rw [show (String.mk (trimChars s.data)).data = trimChars s.data from rfl,
    trimChars_idem]
  rfl

theorem truthy_str_iff (s : String) : truthy (.str s) = true ↔ s ≠ "" := by
  simp [truthy]

theorem truthy_str (s : String) : truthy (.str s) = (s != "") := rfl

theorem truthy_bool (b : Bool) : truthy (.bool b) = b := rfl

theorem toStr_str (s : String) : toStr (.str s) = s := rfl

theorem normItem_itemToJS (now2 : Int) (fresh : String) (it : Item)
    (hid : truthy it.id = true) (htext : it.text ≠ "")
    (htrim : jsTrim it.text = it.text) (hbucket : truthy it.bucket = true) :
    normItem now2 fresh (itemToJS it) = it := by
  obtain ⟨id, text, bucket, done, createdAt, ft⟩ := it
  simp only at hid htext htrim hbucket
  simp [normItem, itemToJS, getField, getFieldList, jsOr, hid, hbucket,
    truthy_str, truthy_bool, toStr_str, htext, htrim]

theorem normMap_encode (now2 : Int) (gen2 : Nat → String) :
    ∀ (its : List Item) (i : Nat), NormalForm its →
      normMap now2 gen2 i (its.map itemToJS) = its := by
  intro its
  induction its with
  | nil => intro i _; rfl
  | cons it rest ih =>
      intro i h
      have hhd := h it (by simp)
      have htl : NormalForm rest := fun x hx => h x (by simp [hx])
      simp only [List.map_cons, normMap]
      rw [normItem_itemToJS now2 (gen2 i) it hhd.1 hhd.2.1 hhd.2.2.1 hhd.2.2.2,
        ih (i + 1) htl]

theorem normalize_encode (now2 : Int) (gen2 : Nat → String) (its : List Item)
    (h : NormalForm its) :
    normalizeDayItems now2 gen2 (.arr (its.map itemToJS)) = its := by
  show (normMap now2 gen2 0
      ((its.map itemToJS).filter (fun x => truthy x && typeofObject x))).filter
      (fun it => it.text != "") = its
  have hfil : (its.map itemToJS).filter (fun x => truthy x && typeofObject x)
      = its.map itemToJS := by
    refine List.filter_eq_self.mpr ?_
    intro x hx
    obtain ⟨it, _, rfl⟩ := List.mem_map.mp hx
    rfl
  rw [hfil, normMap_encode now2 gen2 its 0 h]
  refine List.filter_eq_self.mpr ?_
  intro it hit
  have := (h it hit).2.1
  simpa using this

theorem mem_normMap_props (now : Int) (gen : Nat → String)
    (hgen : ∀ i, gen i ≠ "") :
    ∀ (xs : List JSVal) (i : Nat) (it : Item), it ∈ normMap now gen i xs →
      truthy it.id = true ∧ jsTrim it.text = it.text ∧ truthy it.bucket = true := by
  intro xs
  induction xs with
  | nil => intro i it h; cases h
  | cons x rest ih =>
      intro i it h
      rcases List.mem_cons.mp h with h | h
      · subst h
        refine ⟨?_, ?_, ?_⟩
        · show truthy (jsOr (getField x "id") (.str (gen i))) = true
          unfold jsOr
          by_cases hx : truthy (getField x "id") = true
          · rw [if_pos hx]
            exact hx
          · rw [if_neg hx]
            exact (truthy_str_iff _).mpr (hgen i)
        · show jsTrim (jsTrim (toStr (jsOr (getField x "text") (.str "")))) = _
          exact jsTrim_idem _
        · show truthy (jsOr (getField x "bucket") (.str "morning")) = true
          unfold jsOr
          by_cases hx : truthy (getField x "bucket") = true
          · rw [if_pos hx]
            exact hx
          · rw [if_neg hx]
            decide
      · exact ih (i + 1) it h

theorem normalize_normalForm (now : Int) (gen : Nat → String)
    (hgen : ∀ i, gen i ≠ "") (v : JSVal) :
    NormalForm (normalizeDayItems now gen v) := by
  intro it hit
  cases v with
  | arr xs =>
      unfold normalizeDayItems at hit
      have hmem := List.mem_filter.mp hit
      have hprops := mem_normMap_props now gen hgen _ 0 it hmem.1
      have htext : it.text ≠ "" := by simpa using hmem.2
      exact ⟨hprops.1, htext, hprops.2.1, hprops.2.2⟩
  | undefined => cases hit
  | null => cases hit
  | bool b => cases hit
  | num n => cases hit
  | str s => cases hit
  | obj fs => cases hit

theorem descKeys_perm (ks : List String) : List.Perm (descKeys ks) ks :=
  List.perm_insertionSort _ _

theorem descKeys_sorted (ks : List String) : (descKeys ks).Pairwise keyOrder := by
  haveI : IsTotal String keyOrder := ⟨keyOrder_total⟩
  haveI : IsTrans String keyOrder := ⟨keyOrder_trans⟩
  exact List.sorted_insertionSort keyOrder ks

theorem descKeys_pairwise_gt (ks : List String) (h : ks.Nodup) :
    (descKeys ks).Pairwise (fun a b => strLt b a = true) := by
  have hn : (descKeys ks).Nodup := (descKeys_perm ks).nodup_iff.mpr h
  refine ((descKeys_sorted ks).and hn).imp ?_
  intro a b hab
  rcases strLt_trichotomy a b with h1 | h1 | h1
  · rw [hab.1] at h1
    cases h1
  · exact absurd h1 hab.2
  · exact h1

theorem mem_take_sortedDesc :
    ∀ (l : List String), l.Pairwise (fun a b => strLt b a = true) →
      ∀ (n : Nat) (x : String),
        x ∈ l.take n ↔ x ∈ l ∧ l.countP (fun y => strLt x y) < n := by
  intro l
  induction l with
  | nil => intro _ n x; simp
  | cons a l ih =>
      intro h n x
      rcases List.pairwise_cons.mp h with ⟨ha, hl⟩
      cases n with
      | zero => simp
      | succ n =>
          rw [List.take_succ_cons]
          simp only [List.mem_cons, List.countP_cons]
          by_cases hx : x = a
          · subst hx
            have h0 : l.countP (fun y => strLt x y) = 0 :=
              List.countP_eq_zero.mpr (fun y hy => by
                rw [strLt_asymm (ha y hy)]
                simp)
            rw [h0, strLt_irrefl]
            simp
          · by_cases hxl : x ∈ l
            · have hxa : strLt x a = true := ha x hxl
              rw [ih hl n x]
              simp [hx, hxl, hxa, Nat.succ_lt_succ_iff]
            · have hnt : x ∉ l.take n := fun hm => hxl (List.mem_of_mem_take hm)
              simp [hx, hxl, hnt]

theorem pruneHistory_map_fst (days : Days) (keep : Nat) :
    (pruneHistory days keep).map Prod.fst
      = (descKeys (days.map Prod.fst)).take keep := by
  unfold pruneHistory
  rw [List.map_map]
  have hcomp : (Prod.fst ∘ fun k => (k, jsGet days k)) = id := rfl
  rw [hcomp, List.map_id]

theorem jsGet_map_pair (f : String → JSVal) :
    ∀ (ks : List String) (k : String), k ∈ ks →
      jsGet (ks.map (fun a => (a, f a))) k = f k := by
  intro ks
  induction ks with
  | nil => intro k h; cases h
  | cons a ks ih =>
      intro k h
      show getFieldList ((a, f a) :: ks.map (fun x => (x, f x))) k = f k
      by_cases hk : a = k
      · subst hk
        simp [getFieldList]
      · rcases List.mem_cons.mp h with h2 | h2
        · exact absurd h2.symm hk
        · simpa [getFieldList, hk] using ih k h2

theorem length_pruneHistory_le (days : Days) (keep : Nat) :
    (pruneHistory days keep).length ≤ keep := by
  unfold pruneHistory
  rw [List.length_map, List.length_take]
  exact min_le_left _ _

theorem descKeys_length_le (days : Days) (keep : Nat) (h : days.length ≤ keep) :
    (descKeys (days.map Prod.fst)).length ≤ keep := by
  rw [(descKeys_perm _).length_eq, List.length_map]
  exact h

theorem pruneHistory_keys_of_le (days : Days) (keep : Nat) (h : days.length ≤ keep) :
    ∀ k, k ∈ (pruneHistory days keep).map Prod.fst ↔ k ∈ days.map Prod.fst := by
  intro k
  rw [pruneHistory_map_fst, List.take_of_length_le (descKeys_length_le days keep h)]
  exact (descKeys_perm _).mem_iff

theorem jsGet_pruneHistory_of_le (days : Days) (keep : Nat) (hlen : days.length ≤ keep)
    {k : String} (hk : k ∈ days.map Prod.fst) :
    jsGet (pruneHistory days keep) k = jsGet days k := by
  unfold pruneHistory
  rw [List.take_of_length_le (descKeys_length_le days keep hlen)]
  exact jsGet_map_pair (jsGet days) _ k ((descKeys_perm _).mem_iff.mpr hk)

theorem jsGet_pruneHistory_mem (days : Days) (keep : Nat) {k : String}
    (hk : k ∈ (pruneHistory days keep).map Prod.fst) :
    jsGet (pruneHistory days keep) k = jsGet days k := by
  rw [pruneHistory_map_fst] at hk
  unfold pruneHistory
  exact jsGet_map_pair (jsGet days) _ k hk

theorem setKey_map_fst_of_mem :
    ∀ (d : Days) (k : String) (v : JSVal), k ∈ d.map Prod.fst →
      (setKey d k v).map Prod.fst = d.map Prod.fst := by
  intro d
  induction d with
  | nil => intro k v h; cases h
  | cons p rest ih =>
      intro k v h
      obtain ⟨a, b⟩ := p
      by_cases hk : a = k
      · subst hk
        simp [setKey]
      · rcases List.mem_cons.mp h with h2 | h2
        · exact absurd h2.symm hk
        · simp [setKey, hk]
          exact ih k v h2

theorem jsGet_setKey_self : ∀ (d : Days) (k : String) (v : JSVal),
    jsGet (setKey d k v) k = v := by
  intro d
  induction d with
  | nil => intro k v; simp [setKey, jsGet, getFieldList]
  | cons p rest ih =>
      intro k v
      obtain ⟨a, b⟩ := p
      by_cases hk : a = k
      · subst hk
        simp [setKey, jsGet, getFieldList]
      · simpa [setKey, jsGet, getFieldList, hk] using ih k v

theorem setKey_length_of_mem :
    ∀ (d : Days) (k : String) (v : JSVal), k ∈ d.map Prod.fst →
      (setKey d k v).length = d.length := by
  intro d
  induction d with
  | nil => intro k v h; cases h
  | cons p rest ih =>
      intro k v h
      obtain ⟨a, b⟩ := p
      by_cases hk : a = k
      · subst hk
        simp [setKey]
      · rcases List.mem_cons.mp h with h2 | h2
        · exact absurd h2.symm hk
        · simp [setKey, hk]
          exact ih k v h2

theorem DaysPruned_writeBackItems (s : AppState) (items1 : List Item) :
    DaysPruned (writeBackItems s items1).store.days :=
  ⟨_, rfl⟩

theorem DaysPruned_seedStoreDay (tk : String) (now : Int) (gen : Nat → String)
    (st : Store) : DaysPruned (seedStoreDay tk now gen st).days :=
  ⟨_, rfl⟩

theorem DaysPruned_step (op : Op) (s : AppState) (h : DaysPruned s.store.days) :
    DaysPruned (step op s).store.days := by
  cases op with
  | addItem text bucket now fresh =>
      show DaysPruned (addItem text bucket now fresh s).store.days
      by_cases ht : jsTrim text = ""
      · simp only [addItem, ht, if_pos]
        exact h
      · simp only [addItem, ht, if_neg, ite_false]
        exact DaysPruned_writeBackItems _ _
  | toggleDone id => exact DaysPruned_writeBackItems _ _
  | removeItem id => exact DaysPruned_writeBackItems _ _
  | clearCompleted => exact DaysPruned_writeBackItems _ _
  | markAllDone bucket => exact DaysPruned_writeBackItems _ _
  | resetToday tk now gen => exact DaysPruned_writeBackItems _ _
  | applyTemplatesToToday tk now gen => exact DaysPruned_writeBackItems _ _
  | addTemplateItem text bucket =>
      show DaysPruned (addTemplateItem text bucket s).store.days
      by_cases ht : jsTrim text = ""
      · simp only [addTemplateItem, ht, if_pos]
        exact h
      · simp only [addTemplateItem, ht, if_neg, ite_false]
        exact h
  | removeTemplateItem bucket idx => exact h
  | openHistoryDay k now gen =>
      show DaysPruned (openHistoryDay k now gen s).store.days
      unfold openHistoryDay
      split
      · exact h
      · exact DaysPruned_writeBackItems _ _
  | rolloverPoll tk now gen =>
      show DaysPruned (rolloverPoll tk now gen s).store.days
      unfold rolloverPoll
      split
      · exact h
      · exact DaysPruned_writeBackItems _ _
  | setTab t => exact h

theorem DaysPruned_length_le {d : Days} (h : DaysPruned d) : d.length ≤ 7 := by
  obtain ⟨d0, rfl⟩ := h
  exact length_pruneHistory_le d0 7

theorem DaysPruned_runOps :
    ∀ (ops : List Op) (s : AppState), DaysPruned s.store.days →
      ∀ st ∈ runOps s ops, DaysPruned st.store.days := by
  intro ops
  induction ops with
  | nil =>
      intro s h st hst
      have h2 : st = s := List.mem_singleton.mp hst
      subst h2
      exact h
  | cons op ops ih =>
      intro s h st hst
      rcases List.mem_cons.mp hst with h2 | h2
      · subst h2
        exact h
      · exact ih (step op s) (DaysPruned_step op s h) st h2

theorem expandList_pairs (b : String) (now : Int) (gen : Nat → String) :
    ∀ (ts : List JSVal) (i : Nat),
      (expandList b now gen i ts).map (fun it => (it.bucket, it.text))
        = ((ts.map tplText).filter (fun t => t ≠ "")).map
            (fun t => (JSVal.str b, t)) := by
  intro ts
  induction ts with
  | nil => intro i; rfl
  | cons t ts ih =>
      intro i
      show (if tplText t = "" then expandList b now gen i ts
            else _ :: expandList b now gen (i + 1) ts).map _ = _
      by_cases ht : tplText t = ""
      · simpa [ht] using ih i
      · simpa [ht] using ih (i + 1)

theorem expandList_props (b : String) (now : Int) (gen : Nat → String) :
    ∀ (ts : List JSVal) (i : Nat) (it : Item), it ∈ expandList b now gen i ts →
      it.done = false ∧ it.fromTemplate = true ∧ it.createdAt = now ∧
        it.bucket = JSVal.str b ∧ ∃ j, it.id = JSVal.str (gen j) := by
  intro ts
  induction ts with
  | nil => intro i it h; cases h
  | cons t ts ih =>
      intro i it h
      revert h
      show it ∈ (if tplText t = "" then expandList b now gen i ts
                 else _ :: expandList b now gen (i + 1) ts) → _
      by_cases ht : tplText t = ""
      · rw [if_pos ht]
        exact ih i it
      · rw [if_neg ht]
        intro h
        rcases List.mem_cons.mp h with h2 | h2
        · subst h2
          exact ⟨rfl, rfl, rfl, rfl, i, rfl⟩
        · exact ih (i + 1) it h2

theorem range'_append_one (s m n : Nat) :
    List.range' s m ++ List.range' (s + m) n = List.range' s (m + n) := by
  have h := List.range'_append s m n 1
  simp only [one_mul] at h
  rw [Nat.add_comm n m] at h
  exact h

theorem expandList_ids (b : String) (now : Int) (gen : Nat → String) :
    ∀ (ts : List JSVal) (i : Nat),
      (expandList b now gen i ts).map (fun it => it.id)
        = (List.range' i (expandList b now gen i ts).length).map
            (fun j => JSVal.str (gen j)) := by
  intro ts
  induction ts with
  | nil => intro i; rfl
  | cons t ts ih =>
      intro i
      have hcons : expandList b now gen i (t :: ts)
          = if tplText t = "" then expandList b now gen i ts
            else { id := JSVal.str (gen i), text := tplText t,
                   bucket := JSVal.str b, done := false, createdAt := now,
                   fromTemplate := true } :: expandList b now gen (i + 1) ts := rfl
      rw [hcons]
      by_cases ht : tplText t = ""
      · rw [if_pos ht]
        exact ih i
      · rw [if_neg ht]
        simp only [List.map_cons, List.length_cons, List.range'_succ]
        rw [ih (i + 1)]

theorem expandAll_ids (now : Int) (gen : Nat → String) :
    ∀ (L : List (String × List JSVal)) (i : Nat),
      (expandAll now gen i L).map (fun it => it.id)
        = (List.range' i (expandAll now gen i L).length).map
            (fun j => JSVal.str (gen j)) := by
  intro L
  induction L with
  | nil => intro i; rfl
  | cons p rest ih =>
      intro i
      obtain ⟨b, l⟩ := p
      have hcons : expandAll now gen i ((b, l) :: rest)
          = expandList b now gen i l
            ++ expandAll now gen (i + (expandList b now gen i l).length) rest := rfl
      rw [hcons, List.map_append, List.length_append, expandList_ids, ih,
        ← range'_append_one i (expandList b now gen i l).length, List.map_append]

theorem expandAll_props (now : Int) (gen : Nat → String) :
    ∀ (L : List (String × List JSVal)) (i : Nat) (it : Item),
      it ∈ expandAll now gen i L →
        it.done = false ∧ it.fromTemplate = true ∧ it.createdAt = now ∧
          ∃ j, it.id = JSVal.str (gen j) := by
  intro L
  induction L with
  | nil => intro i it h; cases h
  | cons p rest ih =>
      intro i it h
      obtain ⟨b, l⟩ := p
      rcases List.mem_append.mp h with h2 | h2
      · have := expandList_props b now gen l i it h2
        exact ⟨this.1, this.2.1, this.2.2.1, this.2.2.2.2⟩
      · exact ih _ it h2

theorem mem_normMap_exists (now : Int) (gen : Nat → String) :
    ∀ (ys : List JSVal) (i : Nat) (it : Item), it ∈ normMap now gen i ys →
      ∃ x ∈ ys, ∃ j, it = normItem now (gen j) x := by
  intro ys
  induction ys with
  | nil => intro i it h; cases h
  | cons x rest ih =>
      intro i it h
      rcases List.mem_cons.mp h with h2 | h2
      · exact ⟨x, by simp, i, h2⟩
      · obtain ⟨y, hy, j, hj⟩ := ih (i + 1) it h2
        exact ⟨y, by simp [hy], j, hj⟩

theorem getFieldList_setFieldList_self :
    ∀ (fs : List (String × JSVal)) (k : String) (v : JSVal),
      getFieldList (setFieldList fs k v) k = v := by
  intro fs
  induction fs with
  | nil => intro k v; simp [setFieldList, getFieldList]
  | cons p rest ih =>
      intro k v
      obtain ⟨a, b⟩ := p
      by_cases hk : a = k
      · subst hk
        simp [setFieldList, getFieldList]
      · simpa [setFieldList, getFieldList, hk] using ih k v

/-- C3: for any days map with distinct keys, `pruneHistory(days, 7)` keeps
at most 7 entries; a key is retained exactly when it is present and fewer
than 7 present keys are lexicographically greater (so the retained keys
are the 7 largest, or all keys when there are at most 7); and every
retained key still maps to its original day record.  `pruneHistory` is a
pure Lean function, so it cannot mutate its input. -/
theorem C3_prune_bound (days : Days) (hnd : (days.map Prod.fst).Nodup) :
    (pruneHistory days 7).length ≤ 7
    ∧ (∀ k, k ∈ (pruneHistory days 7).map Prod.fst ↔
        k ∈ days.map Prod.fst
          ∧ (days.map Prod.fst).countP (fun y => strLt k y) < 7)
    ∧ (∀ k, k ∈ (pruneHistory days 7).map Prod.fst →
        jsGet (pruneHistory days 7) k = jsGet days k)
    ∧ (days.length ≤ 7 →
        ∀ k, k ∈ (pruneHistory days 7).map Prod.fst ↔ k ∈ days.map Prod.fst) := by
  refine ⟨length_pruneHistory_le days 7, ?_,
    fun k hk => jsGet_pruneHistory_mem days 7 hk,
    fun h k => pruneHistory_keys_of_le days 7 h k⟩
  intro k
  rw [pruneHistory_map_fst,
    mem_take_sortedDesc _ (descKeys_pairwise_gt _ hnd) 7 k,
    (descKeys_perm _).mem_iff, (descKeys_perm _).countP_eq]

theorem C3_prune_bound_witness :
    (sampleDays.map Prod.fst).Nodup
    ∧ ((pruneHistory sampleDays 7).length ≤ 7
      ∧ (∀ k, k ∈ (pruneHistory sampleDays 7).map Prod.fst ↔
          k ∈ sampleDays.map Prod.fst
            ∧ (sampleDays.map Prod.fst).countP (fun y => strLt k y) < 7)
      ∧ (∀ k, k ∈ (pruneHistory sampleDays 7).map Prod.fst →
          jsGet (pruneHistory sampleDays 7) k = jsGet sampleDays k)
      ∧ (sampleDays.length ≤ 7 →
          ∀ k, k ∈ (pruneHistory sampleDays 7).map Prod.fst ↔
            k ∈ sampleDays.map Prod.fst)) :=
  ⟨by decide, C3_prune_bound sampleDays (by decide)⟩

/-- C4: starting from an arbitrary loaded store, after the mount effects
run, every state reachable by any sequence of user or timer events has a
days map that is the image of a 7-entry prune — hence every persisted
snapshot holds at most 7 day entries, selected by `pruneHistory` as the
lexicographically greatest keys of the map that was pruned. -/
theorem C4_persisted_days_bounded (s0 : Store) (tk : String) (now : Int)
    (gen : Nat → String) (ops : List Op) :
    ∀ st ∈ runOps (mountApp tk now gen s0) ops,
      DaysPruned st.store.days ∧ st.store.days.length ≤ 7 := by
  intro st hst
  have h0 : DaysPruned (mountApp tk now gen s0).store.days :=
    DaysPruned_writeBackItems _ _
  have h := DaysPruned_runOps ops _ h0 st hst
  exact ⟨h, DaysPruned_length_le h⟩

theorem C4_persisted_days_bounded_witness :
    (mountApp "2024-01-02" 0 (fun _ => "g") ⟨.num 2, .obj [], []⟩)
      ∈ runOps (mountApp "2024-01-02" 0 (fun _ => "g") ⟨.num 2, .obj [], []⟩) []
    ∧ (DaysPruned (mountApp "2024-01-02" 0 (fun _ => "g")
          ⟨.num 2, .obj [], []⟩).store.days
      ∧ (mountApp "2024-01-02" 0 (fun _ => "g")
          ⟨.num 2, .obj [], []⟩).store.days.length ≤ 7) :=
  ⟨List.mem_singleton.mpr rfl,
    C4_persisted_days_bounded ⟨.num 2, .obj [], []⟩ "2024-01-02" 0 (fun _ => "g") []
      _ (List.mem_singleton.mpr rfl)⟩

/-- C6: normalisation is idempotent — re-normalising the stored form of an
already-normalised list returns it unchanged, whatever clock value and
id supply the second run sees, as long as the first run's id generator
produces non-empty ids (as the source's `uid()` always does). -/
theorem C6_normalize_idempotent (now now2 : Int) (gen gen2 : Nat → String)
    (hgen : ∀ i, gen i ≠ "") (v : JSVal) :
    normalizeDayItems now2 gen2
        (.arr ((normalizeDayItems now gen v).map itemToJS))
      = normalizeDayItems now gen v :=
  normalize_encode now2 gen2 _ (normalize_normalForm now gen hgen v)

theorem C6_normalize_idempotent_witness :
    (∀ i : Nat, (fun _ : Nat => "g") i ≠ "")
    ∧ normalizeDayItems 1 (fun _ => "h")
        (.arr ((normalizeDayItems 0 (fun _ => "g") sampleRawDay).map itemToJS))
      = normalizeDayItems 0 (fun _ => "g") sampleRawDay :=
  ⟨fun _ => show "g" ≠ "" by decide,
    C6_normalize_idempotent 0 1 (fun _ => "g") (fun _ => "h")
      (fun _ => show "g" ≠ "" by decide) sampleRawDay⟩

/-- C7: template expansion emits, in order, all morning items, then all
noon items, then all evening items, each sublist in stored template order
with empty-after-trim entries skipped; every emitted item is not done,
marked as from-template, stamped with the single `Date.now()` captured at
the start of the call, and carries an id drawn from the fresh-id supply —
pairwise distinct ids whenever the supply is injective. -/
theorem C7_template_expansion (now : Int) (gen : Nat → String)
    (templates : JSVal) :
    ((makeItemsFromTemplates now gen templates).map (fun it => (it.bucket, it.text))
        = (bucketTexts templates "morning").map (fun t => (JSVal.str "morning", t))
          ++ (bucketTexts templates "noon").map (fun t => (JSVal.str "noon", t))
          ++ (bucketTexts templates "evening").map (fun t => (JSVal.str "evening", t)))
    ∧ (∀ it ∈ makeItemsFromTemplates now gen templates,
        it.done = false ∧ it.fromTemplate = true ∧ it.createdAt = now ∧
          ∃ j, it.id = JSVal.str (gen j))
    ∧ (Function.Injective gen →
        ((makeItemsFromTemplates now gen templates).map (fun it => it.id)).Nodup) := by
  refine ⟨?_, ?_, ?_⟩
  · show ((expandList "morning" now gen 0 (bucketList templates "morning")
        ++ expandAll now gen _ [("noon", bucketList templates "noon"),
            ("evening", bucketList templates "evening")]).map
          (fun it => (it.bucket, it.text))) = _
    rw [List.map_append]
    rw [show expandAll now gen
          (0 + (expandList "morning" now gen 0 (bucketList templates "morning")).length)
          [("noon", bucketList templates "noon"),
           ("evening", bucketList templates "evening")]
        = expandList "noon" now gen _ (bucketList templates "noon")
          ++ (expandList "evening" now gen _ (bucketList templates "evening") ++ [])
      from rfl]
    rw [List.map_append, List.map_append]
    rw [expandList_pairs, expandList_pairs, expandList_pairs]
    simp [bucketTexts]
  · intro it hit
    exact expandAll_props now gen _ 0 it hit
  · intro hinj
    show ((expandAll now gen 0 _).map (fun it => it.id)).Nodup
    rw [expandAll_ids]
    refine List.Nodup.map ?_ (List.nodup_range' _ _)
    intro a b hab
    simp only [JSVal.str.injEq] at hab
    exact hinj hab

theorem C7_template_expansion_witness :
    Function.Injective (fun i : Nat => String.mk (List.replicate i 'a'))
    ∧ (((makeItemsFromTemplates 7 (fun i => String.mk (List.replicate i 'a'))
          (.obj [("morning", .arr [.str "A"]), ("noon", .arr [.str "B"]),
                 ("evening", .arr [.str "C"])])).map
          (fun it => it.id)).Nodup) :=
  ⟨fun a b h => by simpa using congrArg (fun s => s.data.length) h,
    (C7_template_expansion 7 (fun i => String.mk (List.replicate i 'a'))
        (.obj [("morning", .arr [.str "A"]), ("noon", .arr [.str "B"]),
               ("evening", .arr [.str "C"])])).2.2
      (fun a b h => by simpa using congrArg (fun s => s.data.length) h)⟩

/-- C5 counterexample: the blob with the legacy shape whose date key is the
empty string (a string, but falsy) is not migrated — the resulting
document's days map is empty instead of holding one entry for that key. -/
theorem C5_counterexample :
    getField ((loadStore (some (some (.obj
        [("dateKey", .str ""), ("items", .arr [.obj [("text", .str "X")]])])))).getD
        .undefined) "days" = .obj [] := by
  decide

/-- C5 (amended): for every persisted blob of the legacy shape whose
`dateKey` is a non-empty string and whose `items` is an array, `load()`
returns a version-2 document whose days map holds exactly the one entry
`dateKey` to the unnormalised items array, with empty template buckets.
(The source tests `parsed.dateKey` for truthiness, so the empty-string
date key — still a string — takes the backfill path instead.) -/
theorem C5_legacy_migration (fs : List (String × JSVal)) (dk : String)
    (its : List JSVal)
    (hdk : getField (.obj fs) "dateKey" = .str dk) (hne : dk ≠ "")
    (hits : getField (.obj fs) "items" = .arr its) :
    loadStore (some (some (.obj fs)))
      = some (.obj [("version", .num 2), ("templates", emptyTemplatesJS),
                    ("days", .obj [(dk, .arr its)])]) := by
  simp only [loadStore]
  rw [hdk, hits]
  simp [truthy, typeofObject, isArray, hne, toStr]

theorem C5_legacy_migration_witness :
    (getField (.obj [("dateKey", .str "2023-12-31"),
        ("items", .arr [.obj [("text", .str "X")]])]) "dateKey"
      = .str "2023-12-31")
    ∧ ("2023-12-31" : String) ≠ ""
    ∧ (getField (.obj [("dateKey", .str "2023-12-31"),
        ("items", .arr [.obj [("text", .str "X")]])]) "items"
      = .arr [.obj [("text", .str "X")]])
    ∧ loadStore (some (some (.obj [("dateKey", .str "2023-12-31"),
        ("items", .arr [.obj [("text", .str "X")]])])))
      = some (.obj [("version", .num 2), ("templates", emptyTemplatesJS),
                    ("days", .obj [("2023-12-31",
                        .arr [.obj [("text", .str "X")]])])]) :=
  ⟨by decide, by decide, by decide,
    C5_legacy_migration _ _ _ (by decide) (by decide) (by decide)⟩

/-- C8 counterexample: a raw item whose bucket is the invalid (but truthy)
string banana keeps that bucket after normalisation instead of being
defaulted to morning. -/
theorem C8_counterexample :
    ((normalizeDayItems 0 (fun _ => "g")
        (.arr [.obj [("text", .str "X"), ("bucket", .str "banana")]])).map
      (fun it => it.bucket)) = [.str "banana"]
    ∧ (JSVal.str "banana" ≠ .str "morning") := by
  decide

/-- C8 (amended): for every element kept by normalisation, the output
bucket is the raw element's bucket whenever that value is truthy — even
when it is not one of morning, noon, evening — and `morning` exactly when
the raw bucket is absent or otherwise falsy. -/
theorem C8_bucket_default (now : Int) (gen : Nat → String) (xs : List JSVal) :
    ∀ it ∈ normalizeDayItems now gen (.arr xs), ∃ x ∈ xs,
      truthy x = true ∧ typeofObject x = true
      ∧ it.bucket = (if truthy (getField x "bucket") = true
          then getField x "bucket" else .str "morning") := by
  intro it hit
  have hmem := (List.mem_filter.mp hit).1
  obtain ⟨x, hx, j, hj⟩ := mem_normMap_exists now gen _ 0 it hmem
  have hx2 := List.mem_filter.mp hx
  refine ⟨x, hx2.1, ?_, ?_, ?_⟩
  · have := hx2.2
    exact (Bool.and_eq_true _ _).mp this |>.1
  · have := hx2.2
    exact (Bool.and_eq_true _ _).mp this |>.2
  · rw [hj]
    rfl

theorem C8_bucket_default_witness :
    ((normalizeDayItems 0 (fun _ => "g") (.arr sampleRawDayList)).head?
        = some sampleBananaItem)
    ∧ (sampleBananaItem ∈ normalizeDayItems 0 (fun _ => "g") (.arr sampleRawDayList)
      ∧ ∃ x ∈ sampleRawDayList,
          truthy x = true ∧ typeofObject x = true
          ∧ sampleBananaItem.bucket = (if truthy (getField x "bucket") = true
              then getField x "bucket" else .str "morning")) :=
  ⟨by decide,
    ⟨by decide,
      C8_bucket_default 0 (fun _ => "g") sampleRawDayList sampleBananaItem
        (by decide)⟩⟩

/-- C9 counterexample: on an unparseable blob the caller substitutes the
inline fallback document, whose template buckets are empty — not the
first-run document with the built-in default templates, as the claim
states. -/
theorem C9_counterexample :
    loadStore (some none) = none
    ∧ storeInit (some none) = fallbackStore
    ∧ getField (getField (storeInit (some none)) "templates") "morning" = .arr []
    ∧ getField (getField freshDefaultStore "templates") "morning"
        = .arr [.str "Water", .str "Stretch", .str "Plan day"]
    ∧ storeInit (some none) ≠ freshDefaultStore := by
  decide

/-- C9 (amended): a present blob that fails to parse, or parses to a falsy
value or a non-object, makes `loadStore` return the corrupt-store signal
(`null`, modelled as `none`) instead of raising, and the caller recovers
by substituting the inline fallback document — version 2, empty template
buckets and empty days, which differs from the first-run document with
built-in default templates.  No error reaches the user: both functions
are total. -/
theorem C9_corrupt_fallback (v : JSVal)
    (h : truthy v = false ∨ typeofObject v = false) :
    loadStore (some (some v)) = none
    ∧ storeInit (some (some v)) = fallbackStore
    ∧ loadStore (some none) = none
    ∧ storeInit (some none) = fallbackStore := by
  have h1 : loadStore (some (some v)) = none := by
    simp only [loadStore]
    rcases h with h | h <;> simp [h]
  refine ⟨h1, ?_, rfl, rfl⟩
  unfold storeInit
  rw [h1]
  rfl

theorem C9_corrupt_fallback_witness :
    (truthy (JSVal.num 5) = false ∨ typeofObject (JSVal.num 5) = false)
    ∧ (loadStore (some (some (JSVal.num 5))) = none
      ∧ storeInit (some (some (JSVal.num 5))) = fallbackStore
      ∧ loadStore (some none) = none
      ∧ storeInit (some none) = fallbackStore) :=
  ⟨by decide, C9_corrupt_fallback (JSVal.num 5) (by decide)⟩

/-- C10 counterexample: removing template index `-1` from the morning list
`[A]` is not a no-op — JavaScript `splice` counts a negative index from
the end, so the (only) element is removed. -/
theorem C10_counterexample :
    spreadArr (getField
        (removeTemplateItem "morning" (-1) sampleTplState).store.templates "morning")
      = []
    ∧ spreadArr (getField sampleTplState.store.templates "morning") = [.str "A"] := by
  decide

/-- C10 (amended): `removeTemplateItem` is a total function (it never
throws); an index at or beyond the bucket's length leaves the list
unchanged; but a negative index is interpreted from the end of the list
(clamped at the front), so on a non-empty list it always removes exactly
one element. -/
theorem C10_remove_template (s : AppState) (b : String) (idx : Int)
    (l : List JSVal) (hl : getField s.store.templates b = .arr l) :
    (spreadArr (getField (removeTemplateItem b idx s).store.templates b)
        = spliceRemoveOne l idx)
    ∧ ((l.length : Int) ≤ idx → spliceRemoveOne l idx = l)
    ∧ (idx < 0 → l ≠ [] → (spliceRemoveOne l idx).length = l.length - 1) := by
  refine ⟨?_, ?_, ?_⟩
  · show spreadArr (getField (.obj (setFieldList (spreadFields s.store.templates) b
        (.arr (spliceRemoveOne (spreadArr (getField s.store.templates b)) idx)))) b) = _
    rw [hl]
    show spreadArr (getFieldList (setFieldList (spreadFields s.store.templates) b
        (.arr (spliceRemoveOne l idx))) b) = _
    rw [getFieldList_setFieldList_self]
    rfl
  · intro h
    simp only [spliceRemoveOne]
    have hneg : ¬ idx < 0 := by omega
    rw [if_neg hneg]
    have hmin : min idx (l.length : Int) = (l.length : Int) := min_eq_right h
    rw [hmin]
    have htn : ((l.length : Int)).toNat = l.length := Int.toNat_natCast _
    rw [htn]
    rw [List.take_of_length_le (le_refl _), List.drop_eq_nil_of_le (by omega),
      List.append_nil]
  · intro hneg hne
    simp only [spliceRemoveOne]
    rw [if_pos hneg]
    have hlen : 1 ≤ l.length := by
      cases l with
      | nil => exact absurd rfl hne
      | cons a t => simp
    rw [List.length_append, List.length_take, List.length_drop]
    omega

theorem C10_remove_template_witness :
    (getField sampleTplState.store.templates "morning" = .arr [.str "A"])
    ∧ ((spreadArr (getField
          (removeTemplateItem "morning" (-1) sampleTplState).store.templates
          "morning") = spliceRemoveOne [.str "A"] (-1))
      ∧ (((([.str "A"] : List JSVal).length : Int) ≤ (-1 : Int) →
          spliceRemoveOne [.str "A"] (-1) = [.str "A"])
      ∧ ((-1 : Int) < 0 → ([.str "A"] : List JSVal) ≠ [] →
          (spliceRemoveOne [.str "A"] (-1)).length
            = ([.str "A"] : List JSVal).length - 1))) :=
  ⟨by decide,
    C10_remove_template sampleTplState "morning" (-1) [.str "A"] (by decide)⟩

/-- C1 counterexample: with the tab on history and a past day active
(`2024-01-01`) while today is `2024-01-05`, the very next rollover poll
switches the active key to today's key and forces the tab back to today —
the claim says the view must be left alone in exactly this situation. -/
theorem C1_counterexample :
    sampleHistState.tab = "history"
    ∧ sampleHistState.dateKey = "2024-01-01"
    ∧ ("2024-01-01" : String) ≠ "2024-01-05"
    ∧ (rolloverPoll "2024-01-05" 0 (fun _ => "g") sampleHistState).dateKey
        = "2024-01-05"
    ∧ (rolloverPoll "2024-01-05" 0 (fun _ => "g") sampleHistState).tab
        = "today" := by
  decide

/-- C1 (amended): a rollover poll leaves the state completely unchanged
when the active key already equals today's key; in every other case —
including when a past day is being viewed — it seeds today in the store,
switches the active key to today's key and forces the tab to today. -/
theorem C1_rollover_forces_view (tk : String) (now : Int) (gen : Nat → String)
    (s : AppState) :
    (s.dateKey = tk → rolloverPoll tk now gen s = s)
    ∧ (s.dateKey ≠ tk →
        (rolloverPoll tk now gen s).dateKey = tk
        ∧ (rolloverPoll tk now gen s).tab = "today"
        ∧ (rolloverPoll tk now gen s).store.days
            = pruneHistory (setKey (seedStoreDay tk now gen s.store).days tk
                (.arr (((rolloverPoll tk now gen s).items).map itemToJS))) 7) := by
  constructor
  · intro h
    unfold rolloverPoll
    rw [if_pos h]
  · intro h
    unfold rolloverPoll
    rw [if_neg h]
    exact ⟨rfl, rfl, rfl⟩

theorem C1_rollover_forces_view_witness :
    sampleHistState.dateKey ≠ "2024-01-05"
    ∧ ((rolloverPoll "2024-01-05" 0 (fun _ => "g") sampleHistState).dateKey
        = "2024-01-05"
      ∧ (rolloverPoll "2024-01-05" 0 (fun _ => "g") sampleHistState).tab = "today"
      ∧ (rolloverPoll "2024-01-05" 0 (fun _ => "g") sampleHistState).store.days
          = pruneHistory (setKey
              (seedStoreDay "2024-01-05" 0 (fun _ => "g")
                sampleHistState.store).days "2024-01-05"
              (.arr (((rolloverPoll "2024-01-05" 0 (fun _ => "g")
                sampleHistState).items).map itemToJS))) 7) :=
  ⟨by decide,
    (C1_rollover_forces_view "2024-01-05" 0 (fun _ => "g") sampleHistState).2
      (by decide)⟩

/-- C2 counterexample: merely opening the history day `2024-01-01`, whose
stored record holds the unnormalised item text ` hi `, rewrites the
persisted record for that day (the sync effect normalises it and the
persist effect writes it back). -/
theorem C2_counterexample :
    jsGet ((openHistoryDay "2024-01-01" 99 (fun _ => "g")
        { sampleHistState with dateKey := "2024-01-05" }).store.days) "2024-01-01"
      ≠ jsGet sampleHistState.store.days "2024-01-01" := by
  decide

/-- C2 (amended): `openHistoryDay(k)` sets the active key to `k` with no
template seeding, and the sync effect derives the working list by
normalising the stored record; but the persist effect then writes that
normalisation back, so the persisted record for `k` becomes the encoded
normalisation of its previous value — unchanged exactly when the record
was already in normal form. -/
theorem C2_open_history (k : String) (now : Int) (gen : Nat → String)
    (s : AppState) (hne : k ≠ s.dateKey)
    (hlen : s.store.days.length ≤ 7)
    (hmem : k ∈ s.store.days.map Prod.fst) :
    (openHistoryDay k now gen s).dateKey = k
    ∧ (openHistoryDay k now gen s).items
        = normalizeDayItems now gen (jsGet s.store.days k)
    ∧ jsGet (openHistoryDay k now gen s).store.days k
        = .arr ((normalizeDayItems now gen (jsGet s.store.days k)).map itemToJS)
    ∧ (∀ its : List Item, jsGet s.store.days k = .arr (its.map itemToJS) →
        NormalForm its → (∀ i, gen i ≠ "") →
        jsGet (openHistoryDay k now gen s).store.days k
          = jsGet s.store.days k) := by
  have hopen : openHistoryDay k now gen s
      = writeBackItems
          { s with tab := "today", dateKey := k,
                   items := normalizeDayItems now gen (jsGet s.store.days k) }
          (normalizeDayItems now gen (jsGet s.store.days k)) := by
    unfold openHistoryDay
    rw [if_neg hne]
  set v := JSVal.arr ((normalizeDayItems now gen (jsGet s.store.days k)).map itemToJS)
    with hv
  have hdays : (openHistoryDay k now gen s).store.days
      = pruneHistory (setKey s.store.days k v) 7 := by
    rw [hopen]
    rfl
  have hget : jsGet (openHistoryDay k now gen s).store.days k = v := by
    rw [hdays]
    have hlen2 : (setKey s.store.days k v).length ≤ 7 := by
      rw [setKey_length_of_mem s.store.days k v hmem]
      exact hlen
    have hmem2 : k ∈ (setKey s.store.days k v).map Prod.fst := by
      rw [setKey_map_fst_of_mem s.store.days k v hmem]
      exact hmem
    rw [jsGet_pruneHistory_of_le _ 7 hlen2 hmem2]
    exact jsGet_setKey_self s.store.days k v
  refine ⟨by rw [hopen]; rfl, by rw [hopen]; rfl, hget, ?_⟩
  intro its hval hnf hgen
  rw [hget, hv, hval, normalize_encode now gen its hnf]

theorem C2_open_history_witness :
    (("2024-01-01" : String) ≠ "2024-01-05"
      ∧ ({ sampleHistState with dateKey := "2024-01-05" }
            : AppState).store.days.length ≤ 7
      ∧ "2024-01-01" ∈ ({ sampleHistState with dateKey := "2024-01-05" }
            : AppState).store.days.map Prod.fst)
    ∧ (openHistoryDay "2024-01-01" 99 (fun _ => "g")
          { sampleHistState with dateKey := "2024-01-05" }).dateKey
        = "2024-01-01" :=
  ⟨⟨by decide, by decide, by decide⟩,
    (C2_open_history "2024-01-01" 99 (fun _ => "g")
        { sampleHistState with dateKey := "2024-01-05" }
        (by decide) (by decide) (by decide)).1⟩

end DailyTracker
